import Mathlib

/-!
Verification development for the posture-telemetry backend
(`backend/server.js`): a shallow embedding of the record normalizer,
the per-source store (latest + bounded history), the NDJSON log
appender, the WebSocket broadcast hub, and the analysis window
extractor, together with proofs of the specified properties.

JavaScript numbers that matter here are finite doubles; they are
modelled as rationals, with a separate constructor for non-finite
numbers (NaN / Infinity).  JSON objects are modelled as association
lists from string keys to values; reading an absent key yields
`undefined`, as in JavaScript.
-/

/-- A JavaScript value as it can appear in a parsed JSON body or in a
record object.  `num` holds a finite number; `nan` stands for any
non-finite number (NaN or an infinity), which `Number.isFinite`
rejects. -/
inductive JSVal where
  | undef
  | null
  | bool (b : Bool)
  | num (q : ℚ)
  | nan
  | str (s : String)
deriving Repr, DecidableEq

/-- A JavaScript object: an association list of key/value pairs,
in insertion order. -/
abbrev JSObj := List (String × JSVal)

namespace JSObj

/-- Property read `o[k]`: the value of the first pair with key `k`,
or `undefined` when the key is absent (JavaScript semantics). -/
def get (o : JSObj) (k : String) : JSVal :=
  match o with
  | [] => .undef
  | (k', v) :: rest => if k' = k then v else get rest k

/-- Whether the object has a pair with key `k`. -/
def hasKey (o : JSObj) (k : String) : Bool :=
  match o with
  | [] => false
  | (k', _) :: rest => k' == k || hasKey rest k

/-- Property write / spread override: `\x7b...o, k: v\x7d` keeps the key in
place when it already exists and appends it at the end otherwise. -/
def set (o : JSObj) (k : String) (v : JSVal) : JSObj :=
  if o.hasKey k then o.map (fun p => if p.1 = k then (k, v) else p)
  else o ++ [(k, v)]

end JSObj

deriving instance DecidableEq for Except

/-- `JSON.stringify` drops object entries whose value is `undefined`;
the serialized form of an object (one NDJSON log line, one WebSocket
message) is modelled as the object with those entries removed. -/
def serialize (o : JSObj) : JSObj :=
  o.filter (fun p => !(p.2 == JSVal.undef))

/-- The whitespace characters relevant to `String.prototype.trim` for
the inputs considered here. -/
def isSpaceChar (c : Char) : Bool :=
  c == ' ' || c == '\t' || c == '\n' || c == '\r'

/-- `s.trim()` on the character list of a string. -/
def trimChars (cs : List Char) : List Char :=
  ((cs.dropWhile isSpaceChar).reverse.dropWhile isSpaceChar).reverse

/-- Value of a list of decimal digits. -/
def natOfDigits (cs : List Char) : ℕ :=
  cs.foldl (fun a c => 10 * a + (c.toNat - '0'.toNat)) 0

/-- Parse an unsigned decimal numeral: digits with an optional
fractional part (`Number` accepts `12`, `12.5`, `.5`, `5.`, but not
`.` or trailing junk).  The value `i.f` is the exact rational
`(i * 10^d + f) / 10^d` where `d` is the number of fraction digits. -/
def parseUnsigned (cs : List Char) : Option ℚ :=
  let intPart := cs.takeWhile Char.isDigit
  let rest := cs.dropWhile Char.isDigit
  match rest with
  | [] => if intPart = [] then none else some (mkRat (natOfDigits intPart) 1)
  | '.' :: frac =>
      if frac.all Char.isDigit && !(intPart = [] && frac = []) then
        some (mkRat (natOfDigits intPart * 10 ^ frac.length + natOfDigits frac)
          (10 ^ frac.length))
      else none
  | _ => none

/-- Model of the `Number(string)` builtin, restricted to the decimal
numerals exchanged by this system: optional sign, then an unsigned
decimal numeral, surrounded by optional whitespace.  Strings outside
this fragment (exponent, hex, `Infinity`) are treated as non-finite,
which `toNum` rejects anyway. -/
def parseDec (s : String) : Option ℚ :=
  match trimChars s.data with
  | '-' :: cs => (parseUnsigned cs).map (fun q => -q)
  | '+' :: cs => parseUnsigned cs
  | cs => parseUnsigned cs

/-- `toNum` from `server.js`: a finite number is kept; a string whose
trim is nonempty and which denotes a finite number is converted;
everything else is `undefined` (modelled as `none`). -/
def toNum (v : JSVal) : Option ℚ :=
  match v with
  | .num q => some q
  | .str s => if trimChars s.data = [] then none else parseDec s
  | _ => none

/-- `undefined` or a finite number, as stored in a sample object
field. -/
def optNum (o : Option ℚ) : JSVal :=
  match o with
  | none => .undef
  | some q => .num q

/-- `normalizeSample` from `server.js`.  `now` stands for the value of
`Date.now()` during the call.  On success the sample object is built
with exactly the listed keys, in source order; optional fields that do
not coerce hold `undefined`. -/
def normalizeSample (body : JSObj) (now : ℚ) : Except String JSObj :=
  match toNum (body.get "pitch") with
  | none => .error "pitch must be a number"
  | some pitch =>
      let ts := (toNum (body.get "ts")).getD now
      .ok [("kind", .str "sample"),
           ("ax", optNum (toNum (body.get "ax"))),
           ("ay", optNum (toNum (body.get "ay"))),
           ("az", optNum (toNum (body.get "az"))),
           ("pitch", .num pitch),
           ("pitch_smooth", optNum (toNum (body.get "pitch_smooth"))),
           ("roll", optNum (toNum (body.get "roll"))),
           ("a_mag", optNum (toNum (body.get "a_mag"))),
           ("dpitch", optNum (toNum (body.get "dpitch"))),
           ("baseline_pitch", optNum (toNum (body.get "baseline_pitch"))),
           ("button", optNum (toNum (body.get "button"))),
           ("button_click", optNum (toNum (body.get "button_click"))),
           ("ts", .num ts)]

/-- `normalizeEvent` from `server.js`: requires `body.event` to be a
string, and rejects it when it is falsy (the empty string); the
message is the body spread with `kind` and `ts` overridden. -/
def normalizeEvent (body : JSObj) (now : ℚ) : Except String JSObj :=
  match body.get "event" with
  | .str s =>
      if s = "" then .error "event must be a string"
      else
        let ts := (toNum (body.get "ts")).getD now
        .ok ((body.set "kind" (.str "event")).set "ts" (.num ts))
  | _ => .error "event must be a string"

/-- A connected WebSocket client: whether its transport is open
(`readyState === OPEN`) and the ordered list of messages it has been
sent. -/
structure Client where
  isOpen : Bool
  inbox : List JSObj
deriving Repr, DecidableEq

/-- The mutable state of `server.js`: the two per-source latest
records, bounded histories, NDJSON logs (as lists of serialized
lines), and the set of connected WebSocket clients. -/
structure ServerState where
  latest1 : JSObj
  latest2 : JSObj
  history1 : List JSObj
  history2 : List JSObj
  log1 : List JSObj
  log2 : List JSObj
  clients : List Client
deriving Repr, DecidableEq

/-- The state right after module load: empty histories and logs, no
clients, and the placeholder latest records
`\x7b pitch: 0, ts: Date.now(), source: i \x7d` (note: no `kind` key).
`t0` is the value of `Date.now()` at startup. -/
def initState (t0 : ℚ) : ServerState :=
  { latest1 := [("pitch", .num 0), ("ts", .num t0), ("source", .num 1)]
    latest2 := [("pitch", .num 0), ("ts", .num t0), ("source", .num 2)]
    history1 := []
    history2 := []
    log1 := []
    log2 := []
    clients := [] }

namespace ServerState

/-- The latest record for a source id (1 selects `latest1`, otherwise
`latest2`); this is what `GET /latest1` / `GET /latest2` return. -/
def latestOf (st : ServerState) (source : ℕ) : JSObj :=
  if source = 1 then st.latest1 else st.latest2

/-- The history array for a source id; this is what `GET /history1` /
`GET /history2` return. -/
def histOf (st : ServerState) (source : ℕ) : List JSObj :=
  if source = 1 then st.history1 else st.history2

/-- The NDJSON log lines for a source id. -/
def logOf (st : ServerState) (source : ℕ) : List JSObj :=
  if source = 1 then st.log1 else st.log2

end ServerState

/-- `appendNdjson`: fire-and-forget append of the serialized record to
the source's log file. -/
def pushLogMsg (source : ℕ) (m : JSObj) (st : ServerState) : ServerState :=
  if source = 1 then { st with log1 := st.log1 ++ [serialize m] }
  else { st with log2 := st.log2 ++ [serialize m] }

/-- `broadcast(obj)`: send the serialized record to every client whose
transport is open. -/
def broadcastMsg (m : JSObj) (st : ServerState) : ServerState :=
  { st with
    clients := st.clients.map (fun c =>
      if c.isOpen then { c with inbox := c.inbox ++ [serialize m] } else c) }

/-- `historyArr.push(msg); if (historyArr.length > MAX_BUFFER)
historyArr.shift();` on one history array. -/
def applyHistory (maxBuffer : ℕ) (h : List JSObj) (m : JSObj) : List JSObj :=
  let h2 := h ++ [m]
  if maxBuffer < h2.length then h2.tail else h2

/-- The history push of `handleIncoming`, routed to the source's
array. -/
def pushHistoryMsg (maxBuffer source : ℕ) (m : JSObj) (st : ServerState) :
    ServerState :=
  if source = 1 then { st with history1 := applyHistory maxBuffer st.history1 m }
  else { st with history2 := applyHistory maxBuffer st.history2 m }

/-- The `setLatest` callback passed by the route handlers:
`(m) => (latest1 = m)` resp. `latest2`. -/
def setLatestMsg (source : ℕ) (m : JSObj) (st : ServerState) : ServerState :=
  if source = 1 then { st with latest1 := m } else { st with latest2 := m }

/-- The HTTP response produced by `handleIncoming`: the `ok` flag, the
status code, and the `error` field of the JSON payload (absent on
success). -/
structure Resp where
  ok : Bool
  status : ℕ
  error : Option String
deriving Repr, DecidableEq

/-- The accepting response `\x7b ok: true \x7d` with status 200. -/
def okResp : Resp := { ok := true, status := 200, error := none }

/-- The rejecting response with status 400 and the normalizer's error
string. -/
def rejResp (e : String) : Resp := { ok := false, status := 400, error := some e }

/-- `handleIncoming(reqBody, source, telemetryPath, historyArr,
setLatest)` from `server.js`.  `maxBuffer` is the `MAX_BUFFER`
configuration value and `now` the value of `Date.now()` during the
call.  The event branch appends to the log, broadcasts, and pushes to
history; the sample branch additionally sets `latest` first.  Both
branches spread `source` into the normalized message. -/
def handleIncoming (maxBuffer : ℕ) (body : JSObj) (source : ℕ) (now : ℚ)
    (st : ServerState) : Resp × ServerState :=
  match body.get "event" with
  | .str _ =>
      match normalizeEvent body now with
      | .error e => (rejResp e, st)
      | .ok m0 =>
          let msg := m0.set "source" (.num source)
          let st1 := pushLogMsg source msg st
          let st2 := broadcastMsg msg st1
          let st3 := pushHistoryMsg maxBuffer source msg st2
          (okResp, st3)
  | _ =>
      match normalizeSample body now with
      | .error e => (rejResp e, st)
      | .ok m0 =>
          let msg := m0.set "source" (.num source)
          let st1 := setLatestMsg source msg st
          let st2 := pushLogMsg source msg st1
          let st3 := broadcastMsg msg st2
          let st4 := pushHistoryMsg maxBuffer source msg st3
          (okResp, st4)

/-- `POST /imu`: ingestion for Arduino #1 (source 1). -/
def postImu (maxBuffer : ℕ) (body : JSObj) (now : ℚ) (st : ServerState) :
    Resp × ServerState :=
  handleIncoming maxBuffer body 1 now st

/-- `POST /imu2`: ingestion for Arduino #2 (source 2). -/
def postImu2 (maxBuffer : ℕ) (body : JSObj) (now : ℚ) (st : ServerState) :
    Resp × ServerState :=
  handleIncoming maxBuffer body 2 now st

/-- The `wss.on("connection")` handler: register a new open client and
immediately send it the serialized `latest1` then `latest2`. -/
def onConnection (st : ServerState) : ServerState :=
  { st with
    clients := st.clients ++
      [{ isOpen := true, inbox := [serialize st.latest1, serialize st.latest2] }] }

/-- One inbound ingestion request: the parsed JSON body, the source id
of the endpoint it arrived on, and the value of `Date.now()` during
its handling. -/
structure Input where
  body : JSObj
  source : ℕ
  now : ℚ
deriving Repr, DecidableEq

/-- Process one ingestion request, keeping only the state. -/
def stepServer (maxBuffer : ℕ) (st : ServerState) (i : Input) : ServerState :=
  (handleIncoming maxBuffer i.body i.source i.now st).2

/-- Process a sequence of ingestion requests in order. -/
def runServer (maxBuffer : ℕ) (inputs : List Input) (st : ServerState) :
    ServerState :=
  inputs.foldl (stepServer maxBuffer) st

/-- The message an accepted request contributes (the normalized record
with `source` spread in), or `none` when the request is rejected.
This is exactly the `msg` that `handleIncoming` logs, broadcasts, and
stores. -/
def mkMsg (body : JSObj) (source : ℕ) (now : ℚ) : Option JSObj :=
  match body.get "event" with
  | .str _ =>
      match normalizeEvent body now with
      | .error _ => none
      | .ok m0 => some (m0.set "source" (.num source))
  | _ =>
      match normalizeSample body now with
      | .error _ => none
      | .ok m0 => some (m0.set "source" (.num source))

/-- Whether `handleIncoming` takes the event branch
(`typeof reqBody?.event === "string"`). -/
def isEventBranch (body : JSObj) : Bool :=
  match body.get "event" with
  | .str _ => true
  | _ => false

/-- `ANALYSIS_WINDOW` default. -/
def ANALYSIS_DEFAULT_WINDOW : ℚ := 300

/-- `ANALYSIS_MAX_WINDOW` default. -/
def ANALYSIS_MAX_WINDOW : ℕ := 1000

/-- `MAX_BUFFER` default. -/
def MAX_BUFFER : ℕ := 2000

/-- `Math.max(20, Math.min(ANALYSIS_MAX_WINDOW, Math.floor(windowReq)))`:
the clamp applied to the requested analysis window size.  `maxW` is the
`ANALYSIS_MAX_WINDOW` configuration value. -/
def clampWindow (maxW : ℕ) (req : ℚ) : ℕ :=
  (max 20 (min (maxW : ℤ) (Rat.floor req))).toNat

/-- `pickWindow = (arr) => arr.slice(Math.max(0, arr.length - window))`:
the most recent `w` elements of the array. -/
def pickWindow (w : ℕ) (arr : List JSObj) : List JSObj :=
  arr.drop (arr.length - w)

/-- The filter `(x) => x.kind === "sample"`. -/
def isSampleRec (o : JSObj) : Bool :=
  o.get "kind" == JSVal.str "sample"

/-- The sort key `(a.ts ?? 0)` of the combined-samples comparator. -/
def tsKey (o : JSObj) : ℚ :=
  match o.get "ts" with
  | .num q => q
  | _ => 0

/-- The window extraction of `POST /gemini/analyze` (the core's
analysis window extractor): clamp the requested size, slice the most
recent records of each history, keep samples only, and select per the
`source` field of the request body (`1`/`"1"`, `2`/`"2"`, anything
else means both, merged by ascending `ts`).  Returns the clamped
window and the combined samples; the state is read, never written. -/
def analyzeWindow (maxW : ℕ) (body : JSObj) (st : ServerState) :
    ℕ × List JSObj :=
  let windowReq := (toNum (body.get "window")).getD ANALYSIS_DEFAULT_WINDOW
  let w := clampWindow maxW windowReq
  let srcSel := match body.get "source" with
    | .undef => JSVal.str "both"
    | .null => JSVal.str "both"
    | v => v
  let s1 := (pickWindow w st.history1).filter isSampleRec
  let s2 := (pickWindow w st.history2).filter isSampleRec
  let combined :=
    if srcSel == JSVal.num 1 || srcSel == JSVal.str "1" then s1
    else if srcSel == JSVal.num 2 || srcSel == JSVal.str "2" then s2
    else (s1 ++ s2).mergeSort (fun a b => decide (tsKey a ≤ tsKey b))
  (w, combined)

/-- The rejection reason `handleIncoming` produces for a body, if
any: a string-typed but falsy (empty) `event` is rejected by
`normalizeEvent`; a body without a string `event` is rejected by
`normalizeSample` when `pitch` does not coerce. -/
def rejectReason (body : JSObj) : Option String :=
  match body.get "event" with
  | .str s => if s = "" then some "event must be a string" else none
  | _ =>
      match toNum (body.get "pitch") with
      | none => some "pitch must be a number"
      | some _ => none

/-- The state change of an accepted record: for samples set `latest`
first, then append the serialized record to the log, broadcast it, and
push it to history; events skip the `latest` update. -/
def acceptStep (maxBuffer source : ℕ) (isEv : Bool) (m : JSObj)
    (st : ServerState) : ServerState :=
  if isEv then
    pushHistoryMsg maxBuffer source m (broadcastMsg m (pushLogMsg source m st))
  else
    pushHistoryMsg maxBuffer source m
      (broadcastMsg m (pushLogMsg source m (setLatestMsg source m st)))

/-- The messages contributed by the accepted requests of a sequence,
in order. -/
def acceptedMsgs (inputs : List Input) : List JSObj :=
  inputs.filterMap (fun i => mkMsg i.body i.source i.now)

/-- The message an input contributes to `latest` of source `s`: only
an accepted request on source `s` taking the sample branch does. -/
def sampleMsgFor (s : ℕ) (i : Input) : Option JSObj :=
  if i.source = s ∧ isEventBranch i.body = false then
    match normalizeSample i.body i.now with
    | .ok m0 => some (m0.set "source" (.num i.source))
    | .error _ => none
  else none

/-- The last `n` elements of a list, in order. -/
def lastN {α : Type} (n : ℕ) (l : List α) : List α :=
  l.drop (l.length - n)

/-- The optional numeric fields of a Sample record. -/
def optFields : List String :=
  ["ax", "ay", "az", "pitch_smooth", "roll", "a_mag", "dpitch",
   "baseline_pitch", "button", "button_click"]

/-- The `/gemini/analyze` handler's interaction with server state: it
computes the clamped window and combined samples from a snapshot of
the histories (`slice`, `filter`, spread — all copying) and leaves the
server state untouched. -/
def postGeminiAnalyze (maxW : ℕ) (body : JSObj) (st : ServerState) :
    (ℕ × List JSObj) × ServerState :=
  (analyzeWindow maxW body st, st)

example : toNum (.str "12.5") = some (mkRat 25 2) := by decide
example : toNum (.str "abc") = none := by decide
example : toNum (.str "  -3 ") = some (mkRat (-3) 1) := by decide
example : toNum (.num 0) = some 0 := by decide
example : toNum (.bool true) = none := by decide
example : toNum .undef = none := by decide
example :
    normalizeSample [("pitch", .num 10)] 7 =
      .ok [("kind", .str "sample"), ("ax", .undef), ("ay", .undef),
           ("az", .undef), ("pitch", .num 10), ("pitch_smooth", .undef),
           ("roll", .undef), ("a_mag", .undef), ("dpitch", .undef),
           ("baseline_pitch", .undef), ("button", .undef),
           ("button_click", .undef), ("ts", .num 7)] := by decide
example :
    normalizeEvent [("event", .str "button_click"), ("ts", .num 123456)] 7 =
      .ok [("event", .str "button_click"), ("ts", .num 123456),
           ("kind", .str "event")] := by decide
example : normalizeEvent [("event", .str ""), ("pitch", .num 5)] 7 =
    .error "event must be a string" := by decide

example :
    (handleIncoming 2000 [("pitch", .num 10)] 1 7 (initState 0)).1 = okResp := by
  decide

example :
    (handleIncoming 2000 [("pitch", .str "abc")] 1 7 (initState 0)) =
      (rejResp "pitch must be a number", initState 0) := by
  decide

example :
    ((handleIncoming 2000 [("pitch", .num 10)] 1 7 (initState 0)).2).latest1 =
      [("kind", .str "sample"), ("ax", .undef), ("ay", .undef), ("az", .undef),
       ("pitch", .num 10), ("pitch_smooth", .undef), ("roll", .undef),
       ("a_mag", .undef), ("dpitch", .undef), ("baseline_pitch", .undef),
       ("button", .undef), ("button_click", .undef), ("ts", .num 7),
       ("source", .num 1)] := by
  decide

example :
    ((handleIncoming 2000 [("event", .str "button_click"), ("ts", .num 123456)] 2 7
        (initState 0)).2).log2 =
      [[("event", .str "button_click"), ("ts", .num 123456),
        ("kind", .str "event"), ("source", .num 2)]] := by
  decide

example : clampWindow 1000 5 = 20 := by decide
example : clampWindow 1000 300 = 300 := by decide
example : clampWindow 1000 2000 = 1000 := by decide
example : clampWindow 1000 (mkRat 51 2) = 25 := by decide
example : clampWindow 1000 (-7) = 20 := by decide

namespace JSObj

lemma get_eq_undef_of_hasKey_false {o : JSObj} {k : String}
    (h : hasKey o k = false) : get o k = .undef := by
  induction o with
  | nil => rfl
  | cons p t ih =>
      cases p with
      | mk k' v =>
          simp only [hasKey, Bool.or_eq_false_iff, beq_eq_false_iff_ne] at h
          simp only [get]
          rw [if_neg h.1]
          exact ih h.2

lemma mem_keys_of_hasKey {o : JSObj} {k : String}
    (h : hasKey o k = true) : k ∈ o.map Prod.fst := by
  induction o with
  | nil => simp [hasKey] at h
  | cons p t ih =>
      cases p with
      | mk k' v =>
          simp only [hasKey, Bool.or_eq_true, beq_iff_eq] at h
          rcases h with h | h
          · simp [h]
          · simp [ih h]

lemma hasKey_of_mem_keys {o : JSObj} {k : String}
    (h : k ∈ o.map Prod.fst) : hasKey o k = true := by
  induction o with
  | nil => simp at h
  | cons p t ih =>
      cases p with
      | mk k' v =>
          simp only [List.map_cons, List.mem_cons] at h
          simp only [hasKey, Bool.or_eq_true, beq_iff_eq]
          rcases h with h | h
          · exact Or.inl h.symm
          · exact Or.inr (ih h)

lemma get_append (a b : JSObj) (k : String) :
    get (a ++ b) k = if hasKey a k then get a k else get b k := by
  induction a with
  | nil => simp [get, hasKey]
  | cons p t ih =>
      cases p with
      | mk k' v =>
          by_cases hk : k' = k
          · subst hk
            simp [get, hasKey]
          · have hb : (k' == k) = false := by simpa using hk
            simp only [List.cons_append, get, hasKey, hb, Bool.false_or,
              if_neg hk]
            exact ih

lemma get_mapput (o : JSObj) (k : String) (v : JSVal) :
    get (o.map (fun p => if p.1 = k then (k, v) else p)) k =
      if hasKey o k then v else .undef := by
  induction o with
  | nil => simp [get, hasKey]
  | cons p t ih =>
      obtain ⟨k', v'⟩ := p
      by_cases hk : k' = k
      · subst hk
        simp only [List.map_cons, if_pos trivial]
        simp [get, hasKey]
      · have hb : (k' == k) = false := by simpa using hk
        simp only [List.map_cons]
        rw [show (if ((k', v') : String × JSVal).1 = k then (k, v)
          else (k', v')) = (k', v') from by simp [hk]]
        simp only [get, hasKey, hb, Bool.false_or, if_neg hk]
        exact ih

lemma get_mapput_ne (o : JSObj) (k : String) (v : JSVal) (k' : String)
    (h : k' ≠ k) :
    get (o.map (fun p => if p.1 = k then (k, v) else p)) k' = get o k' := by
  induction o with
  | nil => rfl
  | cons p t ih =>
      obtain ⟨k1, v1⟩ := p
      by_cases h1 : k1 = k
      · subst h1
        simp only [List.map_cons, if_pos trivial]
        simp only [get]
        rw [if_neg (fun hc => h hc.symm), if_neg (fun hc => h hc.symm)]
        exact ih
      · simp only [List.map_cons]
        rw [show (if ((k1, v1) : String × JSVal).1 = k then (k, v)
          else (k1, v1)) = (k1, v1) from by simp [h1]]
        simp only [get]
        by_cases h2 : k1 = k'
        · simp [h2]
        · rw [if_neg h2, if_neg h2]
          exact ih

lemma get_set_self (o : JSObj) (k : String) (v : JSVal) :
    get (o.set k v) k = v := by
  unfold set
  by_cases h : hasKey o k
  · rw [if_pos h, get_mapput, if_pos h]
  · rw [if_neg h, get_append, if_neg h]
    simp [get]

lemma get_set_ne (o : JSObj) (k : String) (v : JSVal) (k' : String)
    (h : k' ≠ k) : get (o.set k v) k' = get o k' := by
  unfold set
  by_cases hh : hasKey o k
  · rw [if_pos hh]
    exact get_mapput_ne o k v k' h
  · rw [if_neg hh, get_append]
    by_cases ho : hasKey o k'
    · rw [if_pos ho]
    · rw [if_neg ho]
      have hu : get o k' = .undef :=
        get_eq_undef_of_hasKey_false (by simpa using ho)
      rw [hu]
      simp only [get]
      rw [if_neg (fun hc => h hc.symm)]

lemma keys_mapput (o : JSObj) (k : String) (v : JSVal) :
    (o.map (fun p => if p.1 = k then (k, v) else p)).map Prod.fst =
      o.map Prod.fst := by
  rw [List.map_map]
  apply List.map_congr_left
  intro p _
  by_cases hp : p.1 = k <;> simp [hp]

lemma keys_set (o : JSObj) (k : String) (v : JSVal) :
    (o.set k v).map Prod.fst =
      if hasKey o k then o.map Prod.fst else o.map Prod.fst ++ [k] := by
  unfold set
  by_cases h : hasKey o k
  · rw [if_pos h, if_pos h, keys_mapput]
  · rw [if_neg h, if_neg h]
    simp

lemma nodupKeys_set {o : JSObj} (k : String) (v : JSVal)
    (hnd : (o.map Prod.fst).Nodup) : ((o.set k v).map Prod.fst).Nodup := by
  rw [keys_set]
  by_cases h : hasKey o k
  · rw [if_pos h]
    exact hnd
  · rw [if_neg h]
    have hk : k ∉ o.map Prod.fst := fun hm => by
      rw [hasKey_of_mem_keys hm] at h
      exact h rfl
    simp [List.nodup_append, hnd, hk]

end JSObj

lemma keys_serialize_sublist (o : JSObj) :
    ((serialize o).map Prod.fst).Sublist (o.map Prod.fst) :=
  (List.filter_sublist o).map Prod.fst

lemma get_serialize (o : JSObj) (hnd : (o.map Prod.fst).Nodup) (k : String) :
    JSObj.get (serialize o) k =
      if JSObj.get o k = .undef then .undef else JSObj.get o k := by
  induction o with
  | nil => simp [serialize, JSObj.get]
  | cons p t ih =>
      cases p with
      | mk k1 v1 =>
          simp only [List.map_cons, List.nodup_cons] at hnd
          obtain ⟨hk1, hndt⟩ := hnd
          by_cases h1 : k1 = k
          · subst h1
            by_cases hv : v1 = .undef
            · subst hv
              have hser : JSObj.get (serialize t) k1 = .undef := by
                apply JSObj.get_eq_undef_of_hasKey_false
                by_cases hs : JSObj.hasKey (serialize t) k1
                · exact absurd ((keys_serialize_sublist t).subset
                    (JSObj.mem_keys_of_hasKey hs)) hk1
                · simpa using hs
              simp only [serialize, List.filter_cons]
              norm_num
              simpa [serialize, JSObj.get] using hser
            · have hb : (v1 == JSVal.undef) = false := by simpa using hv
              simp only [serialize, List.filter_cons, hb, Bool.not_false,
                if_pos rfl]
              simp [JSObj.get, hv]
          · by_cases hv : v1 = .undef
            · subst hv
              simp only [serialize, List.filter_cons]
              norm_num
              rw [show serialize t = List.filter (fun p => !(p.2 == JSVal.undef)) t from rfl] at ih
              simp only [JSObj.get, if_neg h1]
              exact ih hndt
            · have hb : (v1 == JSVal.undef) = false := by simpa using hv
              simp only [serialize, List.filter_cons, hb, Bool.not_false,
                if_pos rfl, JSObj.get, if_neg h1]
              exact ih hndt

lemma handleIncoming_eq (mb : ℕ) (body : JSObj) (source : ℕ) (now : ℚ)
    (st : ServerState) :
    handleIncoming mb body source now st =
      match mkMsg body source now with
      | none => (rejResp ((rejectReason body).getD ""), st)
      | some m => (okResp, acceptStep mb source (isEventBranch body) m st) := by
  cases h : JSObj.get body "event"
  case str s =>
    by_cases hs : s = ""
    · subst hs
      simp [handleIncoming, mkMsg, rejectReason, isEventBranch,
        normalizeEvent, h, acceptStep]
    · simp [handleIncoming, mkMsg, rejectReason, isEventBranch,
        normalizeEvent, h, hs, acceptStep]
  all_goals
    cases hp : toNum (JSObj.get body "pitch") <;>
      simp [handleIncoming, mkMsg, rejectReason, normalizeSample,
        isEventBranch, h, hp, acceptStep]

lemma latestOf_acceptStep (mb source : ℕ) (isEv : Bool) (m : JSObj)
    (st : ServerState) (s : ℕ) :
    (acceptStep mb source isEv m st).latestOf s =
      if (s = 1 ↔ source = 1) ∧ isEv = false then m else st.latestOf s := by
  cases isEv <;>
    by_cases h1 : s = 1 <;> by_cases h2 : source = 1 <;>
      simp [acceptStep, pushHistoryMsg, broadcastMsg, pushLogMsg,
        setLatestMsg, ServerState.latestOf, h1, h2]

lemma histOf_acceptStep (mb source : ℕ) (isEv : Bool) (m : JSObj)
    (st : ServerState) (s : ℕ) :
    (acceptStep mb source isEv m st).histOf s =
      if s = 1 ↔ source = 1 then applyHistory mb (st.histOf s) m
      else st.histOf s := by
  cases isEv <;>
    by_cases h1 : s = 1 <;> by_cases h2 : source = 1 <;>
      simp [acceptStep, pushHistoryMsg, broadcastMsg, pushLogMsg,
        setLatestMsg, ServerState.histOf, h1, h2]

lemma logOf_acceptStep (mb source : ℕ) (isEv : Bool) (m : JSObj)
    (st : ServerState) (s : ℕ) :
    (acceptStep mb source isEv m st).logOf s =
      if s = 1 ↔ source = 1 then st.logOf s ++ [serialize m]
      else st.logOf s := by
  cases isEv <;>
    by_cases h1 : s = 1 <;> by_cases h2 : source = 1 <;>
      simp [acceptStep, pushHistoryMsg, broadcastMsg, pushLogMsg,
        setLatestMsg, ServerState.logOf, h1, h2]

lemma clients_acceptStep (mb source : ℕ) (isEv : Bool) (m : JSObj)
    (st : ServerState) :
    (acceptStep mb source isEv m st).clients =
      st.clients.map (fun c =>
        if c.isOpen then { c with inbox := c.inbox ++ [serialize m] }
        else c) := by
  cases isEv <;>
    by_cases h2 : source = 1 <;>
      simp [acceptStep, pushHistoryMsg, broadcastMsg, pushLogMsg,
        setLatestMsg, h2]

lemma sampleMsgFor_eq_none_of_mkMsg {i : Input} {s : ℕ}
    (hm : mkMsg i.body i.source i.now = none) : sampleMsgFor s i = none := by
  unfold mkMsg at hm
  unfold sampleMsgFor
  cases h : JSObj.get i.body "event"
  case str s' => simp [isEventBranch, h]
  all_goals
    rw [h] at hm
    cases hn : normalizeSample i.body i.now with
    | error e => simp [isEventBranch, h, hn]
    | ok m0 => rw [hn] at hm; simp at hm

lemma sampleMsgFor_of_mkMsg_some {i : Input} {s : ℕ} {m : JSObj}
    (hm : mkMsg i.body i.source i.now = some m) :
    sampleMsgFor s i =
      if i.source = s ∧ isEventBranch i.body = false then some m
      else none := by
  unfold mkMsg at hm
  unfold sampleMsgFor
  cases h : JSObj.get i.body "event"
  case str s' => simp [isEventBranch, h]
  all_goals
    rw [h] at hm
    cases hn : normalizeSample i.body i.now with
    | error e => rw [hn] at hm; simp at hm
    | ok m0 =>
        rw [hn] at hm
        simp only [Option.some.injEq] at hm
        simp [isEventBranch, h, hn, hm]

lemma latestOf_stepServer (mb : ℕ) (i : Input) (st : ServerState) (s : ℕ)
    (hs : s = 1 ∨ s = 2) (hi : i.source = 1 ∨ i.source = 2) :
    (stepServer mb st i).latestOf s =
      (sampleMsgFor s i).getD (st.latestOf s) := by
  unfold stepServer
  rw [handleIncoming_eq]
  cases hm : mkMsg i.body i.source i.now with
  | none => rw [sampleMsgFor_eq_none_of_mkMsg hm]; rfl
  | some m =>
      rw [sampleMsgFor_of_mkMsg_some hm]
      simp only [latestOf_acceptStep]
      have hiff : (s = 1 ↔ i.source = 1) ↔ i.source = s := by
        rcases hs with h | h <;> rcases hi with h' | h' <;>
          simp [h, h']
      by_cases hc : i.source = s ∧ isEventBranch i.body = false
      · rw [if_pos ⟨hiff.mpr hc.1, hc.2⟩, if_pos hc]
        rfl
      · rw [if_neg (fun hc2 => hc ⟨hiff.mp hc2.1, hc2.2⟩), if_neg hc]
        rfl

lemma getLast?_cons_getD {α : Type} (l : List α) (a d : α) :
    ((a :: l).getLast?).getD d = (l.getLast?).getD a := by
  induction l generalizing a d with
  | nil => rfl
  | cons b t ih =>
      rw [List.getLast?_cons_cons, ih b d, ih b a]

lemma latestOf_runServer (mb : ℕ) (inputs : List Input) (st : ServerState)
    (s : ℕ) (hs : s = 1 ∨ s = 2)
    (hinputs : ∀ i ∈ inputs, i.source = 1 ∨ i.source = 2) :
    (runServer mb inputs st).latestOf s =
      ((inputs.filterMap (sampleMsgFor s)).getLast?).getD
        (st.latestOf s) := by
  induction inputs generalizing st with
  | nil => rfl
  | cons i is ih =>
      have hi : i.source = 1 ∨ i.source = 2 := hinputs i (by simp)
      have his : ∀ j ∈ is, j.source = 1 ∨ j.source = 2 :=
        fun j hj => hinputs j (by simp [hj])
      rw [show runServer mb (i :: is) st =
        runServer mb is (stepServer mb st i) from rfl]
      rw [ih (stepServer mb st i) his]
      rw [latestOf_stepServer mb i st s hs hi]
      cases hsm : sampleMsgFor s i with
      | none => simp [List.filterMap_cons, hsm]
      | some m =>
          simp only [List.filterMap_cons, hsm, Option.getD_some]
          exact (getLast?_cons_getD (List.filterMap (sampleMsgFor s) is) m
            (st.latestOf s)).symm

lemma histOf_stepServer (mb : ℕ) (i : Input) (st : ServerState) (s : ℕ)
    (hs : s = 1 ∨ s = 2) (hi : i.source = 1 ∨ i.source = 2) :
    (stepServer mb st i).histOf s =
      match (if i.source = s then mkMsg i.body i.source i.now else none) with
      | some m => applyHistory mb (st.histOf s) m
      | none => st.histOf s := by
  unfold stepServer
  rw [handleIncoming_eq]
  cases hm : mkMsg i.body i.source i.now with
  | none => simp
  | some m =>
      simp only [histOf_acceptStep]
      have hiff : (s = 1 ↔ i.source = 1) ↔ i.source = s := by
        rcases hs with h | h <;> rcases hi with h' | h' <;> simp [h, h']
      by_cases hc : i.source = s
      · rw [if_pos (hiff.mpr hc), if_pos hc]
      · rw [if_neg (fun hc2 => hc (hiff.mp hc2)), if_neg hc]

lemma histOf_runServer (mb : ℕ) (inputs : List Input) (st : ServerState)
    (s : ℕ) (hs : s = 1 ∨ s = 2) (hsrc : ∀ i ∈ inputs, i.source = s)
    (hacc : ∀ i ∈ inputs, (mkMsg i.body i.source i.now).isSome) :
    (runServer mb inputs st).histOf s =
      (acceptedMsgs inputs).foldl (applyHistory mb) (st.histOf s) := by
  induction inputs generalizing st with
  | nil => rfl
  | cons i is ih =>
      have hi : i.source = s := hsrc i (by simp)
      have hm : (mkMsg i.body i.source i.now).isSome := hacc i (by simp)
      obtain ⟨m, hm⟩ := Option.isSome_iff_exists.mp hm
      rw [show runServer mb (i :: is) st =
        runServer mb is (stepServer mb st i) from rfl]
      rw [ih (stepServer mb st i) (fun j hj => hsrc j (by simp [hj]))
        (fun j hj => hacc j (by simp [hj]))]
      rw [histOf_stepServer mb i st s hs (hi ▸ hs)]
      simp only [acceptedMsgs, List.filterMap_cons, hm, if_pos hi,
        List.foldl_cons]

lemma applyHistory_eq_lastN {mb : ℕ} {h : List JSObj} (m : JSObj)
    (hh : h.length ≤ mb) :
    applyHistory mb h m = lastN mb (h ++ [m]) := by
  unfold applyHistory lastN
  by_cases hc : mb < (h ++ [m]).length
  · rw [if_pos hc]
    simp only [List.length_append, List.length_cons, List.length_nil] at hc ⊢
    have : h.length + (0 + 1) - mb = 1 := by omega
    rw [this, List.drop_one]
  · rw [if_neg hc]
    simp only [List.length_append, List.length_cons, List.length_nil] at hc ⊢
    have : h.length + (0 + 1) - mb = 0 := by omega
    rw [this, List.drop_zero]

lemma lastN_length {α : Type} (n : ℕ) (l : List α) :
    (lastN n l).length = min n l.length := by
  simp only [lastN, List.length_drop]
  omega

lemma lastN_append_absorb {α : Type} (n : ℕ) (l ms : List α) :
    lastN n (lastN n l ++ ms) = lastN n (l ++ ms) := by
  by_cases hl : l.length ≤ n
  · have : lastN n l = l := by
      simp [lastN, Nat.sub_eq_zero_of_le hl]
    rw [this]
  · simp only [lastN, List.length_append, List.length_drop]
    rw [List.drop_append_eq_append_drop, List.drop_append_eq_append_drop,
      List.drop_drop]
    simp only [List.length_drop]
    congr 1
    · congr 1
      omega
    · congr 1
      omega

lemma foldl_applyHistory (mb : ℕ) (msgs : List JSObj) (h : List JSObj)
    (hh : h.length ≤ mb) :
    msgs.foldl (applyHistory mb) h = lastN mb (h ++ msgs) := by
  induction msgs generalizing h with
  | nil => simp [lastN, Nat.sub_eq_zero_of_le hh]
  | cons m ms ih =>
      rw [List.foldl_cons, applyHistory_eq_lastN m hh]
      rw [ih _ (by rw [lastN_length]; omega)]
      rw [lastN_append_absorb]
      simp

lemma clients_stepServer (mb : ℕ) (st : ServerState) (i : Input) :
    (stepServer mb st i).clients =
      match mkMsg i.body i.source i.now with
      | none => st.clients
      | some m =>
          st.clients.map (fun c =>
            if c.isOpen then { c with inbox := c.inbox ++ [serialize m] }
            else c) := by
  unfold stepServer
  rw [handleIncoming_eq]
  cases hm : mkMsg i.body i.source i.now with
  | none => rfl
  | some m => simp only [clients_acceptStep]

lemma clients_runServer_at (mb : ℕ) (inputs : List Input) :
    ∀ (st : ServerState) (idx : ℕ) (c : Client),
      st.clients[idx]? = some c → c.isOpen = true →
      (runServer mb inputs st).clients[idx]? =
        some ⟨true, c.inbox ++ (acceptedMsgs inputs).map serialize⟩ := by
  induction inputs with
  | nil =>
      intro st idx c hc hopen
      simp only [runServer, List.foldl_nil, acceptedMsgs, List.filterMap_nil,
        List.map_nil, List.append_nil]
      rw [hc]
      cases c
      simp_all
  | cons i is ih =>
      intro st idx c hc hopen
      rw [show runServer mb (i :: is) st =
        runServer mb is (stepServer mb st i) from rfl]
      cases hm : mkMsg i.body i.source i.now with
      | none =>
          have hstep : (stepServer mb st i).clients = st.clients := by
            rw [clients_stepServer]; simp [hm]
          have := ih (stepServer mb st i) idx c (by rw [hstep]; exact hc) hopen
          rw [this]
          simp [acceptedMsgs, List.filterMap_cons, hm]
      | some m =>
          have hstep : (stepServer mb st i).clients[idx]? =
              some ⟨true, c.inbox ++ [serialize m]⟩ := by
            rw [clients_stepServer]
            simp only [hm, List.getElem?_map, hc, Option.map_some]
            simp [hopen]
          have := ih (stepServer mb st i) idx ⟨true, c.inbox ++ [serialize m]⟩
            hstep rfl
          rw [this]
          simp [acceptedMsgs, List.filterMap_cons, hm]

lemma normalizeSample_ok_iff (body : JSObj) (now : ℚ) :
    (∃ m, normalizeSample body now = .ok m) ↔
      (toNum (JSObj.get body "pitch")).isSome := by
  unfold normalizeSample
  cases hp : toNum (JSObj.get body "pitch") <;> simp

lemma mkMsg_sample_eq {body : JSObj} {p : ℚ} (source : ℕ) (now : ℚ)
    (hev : isEventBranch body = false)
    (hp : toNum (JSObj.get body "pitch") = some p) :
    mkMsg body source now =
      some (JSObj.set [("kind", .str "sample"),
        ("ax", optNum (toNum (JSObj.get body "ax"))),
        ("ay", optNum (toNum (JSObj.get body "ay"))),
        ("az", optNum (toNum (JSObj.get body "az"))),
        ("pitch", .num p),
        ("pitch_smooth", optNum (toNum (JSObj.get body "pitch_smooth"))),
        ("roll", optNum (toNum (JSObj.get body "roll"))),
        ("a_mag", optNum (toNum (JSObj.get body "a_mag"))),
        ("dpitch", optNum (toNum (JSObj.get body "dpitch"))),
        ("baseline_pitch", optNum (toNum (JSObj.get body "baseline_pitch"))),
        ("button", optNum (toNum (JSObj.get body "button"))),
        ("button_click", optNum (toNum (JSObj.get body "button_click"))),
        ("ts", .num ((toNum (JSObj.get body "ts")).getD now))]
          "source" (.num source)) := by
  unfold mkMsg
  cases h : JSObj.get body "event"
  case str s => simp [isEventBranch, h] at hev
  all_goals simp [normalizeSample, h, hp]

lemma mkMsg_event_eq {body : JSObj} {now : ℚ} {s : String} (source : ℕ)
    (hev : JSObj.get body "event" = .str s) (hs : s ≠ "") :
    mkMsg body source now =
      some (((body.set "kind" (.str "event")).set "ts"
        (.num ((toNum (JSObj.get body "ts")).getD now))).set
          "source" (.num source)) := by
  unfold mkMsg
  simp [normalizeEvent, hev, hs]

lemma get_sampleLiteral_kind (vax vay vaz vps vroll vamag vdp vbp vb vbc : JSVal)
    (p ts : ℚ) :
    JSObj.get [("kind", .str "sample"), ("ax", vax), ("ay", vay), ("az", vaz),
      ("pitch", .num p), ("pitch_smooth", vps), ("roll", vroll),
      ("a_mag", vamag), ("dpitch", vdp), ("baseline_pitch", vbp),
      ("button", vb), ("button_click", vbc), ("ts", .num ts)] "kind" =
      .str "sample" := rfl

lemma get_sampleLiteral_ts (vax vay vaz vps vroll vamag vdp vbp vb vbc : JSVal)
    (p ts : ℚ) :
    JSObj.get [("kind", .str "sample"), ("ax", vax), ("ay", vay), ("az", vaz),
      ("pitch", .num p), ("pitch_smooth", vps), ("roll", vroll),
      ("a_mag", vamag), ("dpitch", vdp), ("baseline_pitch", vbp),
      ("button", vb), ("button_click", vbc), ("ts", .num ts)] "ts" =
      .num ts := rfl

lemma mkMsg_fields {body : JSObj} {source : ℕ} {now : ℚ} {m : JSObj}
    (hm : mkMsg body source now = some m) :
    JSObj.get m "source" = .num source ∧
    JSObj.get m "ts" = .num ((toNum (JSObj.get body "ts")).getD now) ∧
    JSObj.get m "kind" =
      (if isEventBranch body then JSVal.str "event" else .str "sample") := by
  unfold mkMsg at hm
  cases h : JSObj.get body "event"
  case str s =>
    rw [h] at hm
    by_cases hs : s = ""
    · simp [normalizeEvent, h, hs] at hm
    · simp only [normalizeEvent, h, if_neg hs] at hm
      simp only [Option.some.injEq] at hm
      subst hm
      refine ⟨JSObj.get_set_self _ _ _, ?_, ?_⟩
      · rw [JSObj.get_set_ne _ _ _ _ (by decide), JSObj.get_set_self]
      · rw [JSObj.get_set_ne _ _ _ _ (by decide),
          JSObj.get_set_ne _ _ _ _ (by decide), JSObj.get_set_self]
        simp [isEventBranch, h]
  all_goals
    rw [h] at hm
    cases hp : toNum (JSObj.get body "pitch") with
    | none => simp [normalizeSample, hp] at hm
    | some p =>
        simp only [normalizeSample, hp, Option.some.injEq] at hm
        subst hm
        refine ⟨JSObj.get_set_self _ _ _, ?_, ?_⟩
        · rw [JSObj.get_set_ne _ _ _ _ (by decide)]
          exact get_sampleLiteral_ts _ _ _ _ _ _ _ _ _ _ _ _
        · rw [JSObj.get_set_ne _ _ _ _ (by decide)]
          simp [isEventBranch, h]
          exact get_sampleLiteral_kind _ _ _ _ _ _ _ _ _ _ _ _

/-- **C3**: for every raw object lacking both a string `event` and a
numeric-coercible `pitch`, ingest returns a rejection with 400-class
status and performs no side effects at all: the per-source latest and
history are unchanged, nothing is appended to the log file, and no
subscriber receives any message (the entire server state is returned
unchanged). -/
theorem C3_reject_no_side_effects (mb : ℕ) (body : JSObj) (source : ℕ)
    (now : ℚ) (st : ServerState)
    (hev : ∀ s : String, JSObj.get body "event" = .str s → s = "")
    (hp : toNum (JSObj.get body "pitch") = none) :
    (handleIncoming mb body source now st).1.status = 400 ∧
    (handleIncoming mb body source now st).1.ok = false ∧
    (handleIncoming mb body source now st).2 = st := by
  cases h : JSObj.get body "event"
  case str s =>
    have hs : s = "" := hev s h
    subst hs
    simp [handleIncoming, normalizeEvent, h, rejResp]
  all_goals simp [handleIncoming, normalizeSample, h, hp, rejResp]

/-- Witness for C3 at the concrete rejected body of Scenario C. -/
theorem C3_witness :
    (handleIncoming 2000 [("pitch", JSVal.str "abc")] 1 0
      (initState 0)).1.status = 400 ∧
    (handleIncoming 2000 [("pitch", JSVal.str "abc")] 1 0
      (initState 0)).1.ok = false ∧
    (handleIncoming 2000 [("pitch", JSVal.str "abc")] 1 0
      (initState 0)).2 = initState 0 :=
  C3_reject_no_side_effects 2000 [("pitch", JSVal.str "abc")] 1 0
    (initState 0) (fun s hs => by simp [JSObj.get] at hs) (by decide)

/-- **C2 counterexample**: the claim says a raw object whose `event`
is not a non-empty string but whose `pitch` coerces is accepted as a
Sample; yet the body with an empty-string `event` and numeric `pitch`
is rejected with status 400 and reason `event must be a string`. -/
theorem C2_counterexample :
    (handleIncoming 2000 [("event", JSVal.str ""), ("pitch", JSVal.num 5)] 1 0
      (initState 0)).1 = rejResp "event must be a string" ∧
    rejResp "event must be a string" ≠ okResp ∧
    (rejResp "event must be a string").status = 400 := by
  decide

/-- **C2 (amended)**: normalization fails with reason `pitch must be a
number` exactly when the raw object's `event` field is not a string at
all and its `pitch` is not coercible to a finite number.  A raw object
whose `event` is a string is routed to the event branch even when the
string is empty: an empty-string `event` is rejected with `event must
be a string` even if `pitch` is coercible.  When `event` is absent or
a non-string value and `pitch` is coercible, ingest accepts the record
as a Sample. -/
theorem C2_validation_characterization (mb : ℕ) (body : JSObj) (source : ℕ)
    (now : ℚ) (st : ServerState) :
    ((handleIncoming mb body source now st).1.error =
        some "pitch must be a number" ↔
      (isEventBranch body = false ∧ toNum (JSObj.get body "pitch") = none)) ∧
    ((handleIncoming mb body source now st).1.error =
        some "event must be a string" ↔
      JSObj.get body "event" = .str "") ∧
    (isEventBranch body = false → ∀ p, toNum (JSObj.get body "pitch") = some p →
      (handleIncoming mb body source now st).1 = okResp ∧
      ∃ m, mkMsg body source now = some m ∧
        JSObj.get m "kind" = .str "sample") := by
  refine ⟨?_, ?_, ?_⟩
  · cases h : JSObj.get body "event"
    case str s =>
      by_cases hs : s = ""
      · subst hs
        simp [handleIncoming, normalizeEvent, h, rejResp, isEventBranch]
      · simp [handleIncoming, normalizeEvent, h, hs, rejResp, okResp,
          isEventBranch]
    all_goals
      cases hp : toNum (JSObj.get body "pitch") <;>
        simp [handleIncoming, normalizeSample, h, hp, rejResp, okResp,
          isEventBranch]
  · cases h : JSObj.get body "event"
    case str s =>
      by_cases hs : s = ""
      · subst hs
        simp [handleIncoming, normalizeEvent, h, rejResp, isEventBranch]
      · simp [handleIncoming, normalizeEvent, h, hs, rejResp, okResp,
          isEventBranch, hs]
    all_goals
      cases hp : toNum (JSObj.get body "pitch") <;>
        simp [handleIncoming, normalizeSample, h, hp, rejResp, okResp,
          isEventBranch]
  · intro hev p hp
    have hm := mkMsg_sample_eq source now hev hp
    refine ⟨?_, ⟨_, hm, ?_⟩⟩
    · rw [handleIncoming_eq, hm]
    · obtain ⟨h1, h2, h3⟩ := mkMsg_fields hm
      rw [h3, hev]
      simp

/-- Witness for C2 (amended) at a body with a numeric-string pitch and
no event: it is accepted as a Sample. -/
theorem C2_witness :
    (handleIncoming 2000 [("pitch", JSVal.str "12.5")] 1 0
      (initState 0)).1 = okResp ∧
    ∃ m, mkMsg [("pitch", JSVal.str "12.5")] 1 0 = some m ∧
      JSObj.get m "kind" = .str "sample" :=
  (C2_validation_characterization 2000 [("pitch", JSVal.str "12.5")] 1 0
    (initState 0)).2.2 (by decide) (mkRat 25 2) (by decide)

/-- **C1 counterexample**: an accepted event is the Nth (here first)
accepted record of source 1, it is appended to the history, yet
`latest1` still holds the startup placeholder, not the event:
`getLatest` does not return the Nth accepted record when that record
is an event. -/
theorem C1_counterexample :
    (handleIncoming 2000 [("event", JSVal.str "calibrate")] 1 5
      (initState 0)).1 = okResp ∧
    ((handleIncoming 2000 [("event", JSVal.str "calibrate")] 1 5
      (initState 0)).2).history1 =
      [[("event", JSVal.str "calibrate"), ("kind", JSVal.str "event"),
        ("ts", JSVal.num 5), ("source", JSVal.num 1)]] ∧
    ((handleIncoming 2000 [("event", JSVal.str "calibrate")] 1 5
      (initState 0)).2).latest1 ≠
      [("event", JSVal.str "calibrate"), ("kind", JSVal.str "event"),
        ("ts", JSVal.num 5), ("source", JSVal.num 1)] := by
  decide

/-- **C1 (amended)**: for every source and every sequence of requests,
`getLatest` for that source returns the most recent accepted *sample*
among them (field for field), with the startup placeholder as default;
accepted *events* leave `latest` untouched for every source; and when
an accepted record is a sample, the post-state of its ingestion
already has it as `latest` and has delivered exactly it (serialized)
to every open subscriber, so the store update is observable by the
time the record reaches any subscriber — all regardless of activity on
the other source. -/
theorem C1_latest_tracks_samples :
    (∀ (mb : ℕ) (inputs : List Input) (st : ServerState) (s : ℕ),
      (s = 1 ∨ s = 2) → (∀ i ∈ inputs, i.source = 1 ∨ i.source = 2) →
      (runServer mb inputs st).latestOf s =
        ((inputs.filterMap (sampleMsgFor s)).getLast?).getD
          (st.latestOf s)) ∧
    (∀ (mb : ℕ) (body : JSObj) (source : ℕ) (now : ℚ) (st : ServerState)
        (m : JSObj),
      isEventBranch body = false → mkMsg body source now = some m →
      (handleIncoming mb body source now st).1 = okResp ∧
      (handleIncoming mb body source now st).2.latestOf source = m ∧
      (handleIncoming mb body source now st).2.clients =
        st.clients.map (fun c =>
          if c.isOpen then { c with inbox := c.inbox ++ [serialize m] }
          else c)) ∧
    (∀ (mb : ℕ) (body : JSObj) (source : ℕ) (now : ℚ) (st : ServerState)
        (s : ℕ),
      isEventBranch body = true →
      ((handleIncoming mb body source now st).2).latestOf s =
        st.latestOf s) := by
  refine ⟨latestOf_runServer, ?_, ?_⟩
  · intro mb body source now st m hev hm
    rw [handleIncoming_eq, hm]
    refine ⟨rfl, ?_, clients_acceptStep mb source (isEventBranch body) m st⟩
    rw [latestOf_acceptStep]
    rw [if_pos ⟨Iff.rfl, hev⟩]
  · intro mb body source now st s hev
    rw [handleIncoming_eq]
    cases hm : mkMsg body source now with
    | none => rfl
    | some m =>
        simp only [latestOf_acceptStep, hev]
        rw [if_neg (by simp)]

/-- Witness for C1 (amended): a sample then an event on source 1, with
a sample on source 2 interleaved; `latest1` is the source-1 sample. -/
theorem C1_witness :
    (runServer 2000
      [⟨[("pitch", JSVal.num 3)], 1, 9⟩,
       ⟨[("pitch", JSVal.num 4)], 2, 10⟩,
       ⟨[("event", JSVal.str "calibrate")], 1, 11⟩]
      (initState 0)).latestOf 1 =
      (([⟨[("pitch", JSVal.num 3)], 1, 9⟩,
         ⟨[("pitch", JSVal.num 4)], 2, 10⟩,
         ⟨[("event", JSVal.str "calibrate")], 1, 11⟩].filterMap
          (sampleMsgFor 1)).getLast?).getD ((initState 0).latestOf 1) :=
  C1_latest_tracks_samples.1 2000
    [⟨[("pitch", JSVal.num 3)], 1, 9⟩,
     ⟨[("pitch", JSVal.num 4)], 2, 10⟩,
     ⟨[("event", JSVal.str "calibrate")], 1, 11⟩]
    (initState 0) 1 (Or.inl rfl) (by decide)

/-- **C4**: for every source, after any sequence of N accepted records
(all on that source), the history holds exactly the last
`min(N, MAX_BUFFER)` accepted records in acceptance order (strict FIFO
eviction from the front); in particular inserting `MAX_BUFFER + k`
records leaves the history equal to the accepted records with the
first k dropped, of length `MAX_BUFFER`. -/
theorem C4_bounded_history (mb : ℕ) (s : ℕ) (inputs : List Input)
    (st : ServerState) (hs : s = 1 ∨ s = 2) (h0 : st.histOf s = [])
    (hsrc : ∀ i ∈ inputs, i.source = s)
    (hacc : ∀ i ∈ inputs, (mkMsg i.body i.source i.now).isSome) :
    (runServer mb inputs st).histOf s =
      (acceptedMsgs inputs).drop ((acceptedMsgs inputs).length - mb) ∧
    (acceptedMsgs inputs).length = inputs.length ∧
    ((runServer mb inputs st).histOf s).length = min mb inputs.length := by
  have hlen : (acceptedMsgs inputs).length = inputs.length := by
    unfold acceptedMsgs
    induction inputs with
    | nil => rfl
    | cons i is ih =>
        have hm := hacc i (by simp)
        obtain ⟨m, hm⟩ := Option.isSome_iff_exists.mp hm
        simp only [List.filterMap_cons, hm, List.length_cons]
        rw [ih (fun j hj => hsrc j (by simp [hj]))
          (fun j hj => hacc j (by simp [hj]))]
  have hrun : (runServer mb inputs st).histOf s =
      lastN mb (acceptedMsgs inputs) := by
    rw [histOf_runServer mb inputs st s hs hsrc hacc, h0,
      foldl_applyHistory mb _ [] (by simp)]
    rfl
  refine ⟨hrun, hlen, ?_⟩
  rw [hrun, lastN_length, hlen, Nat.min_comm]

/-- Witness for C4: three accepted samples on source 1 with
`MAX_BUFFER = 2`; the history keeps the last two. -/
theorem C4_witness :
    (runServer 2
      [⟨[("pitch", JSVal.num 1)], 1, 1⟩,
       ⟨[("pitch", JSVal.num 2)], 1, 2⟩,
       ⟨[("pitch", JSVal.num 3)], 1, 3⟩]
      (initState 0)).histOf 1 =
      (acceptedMsgs
        [⟨[("pitch", JSVal.num 1)], 1, 1⟩,
         ⟨[("pitch", JSVal.num 2)], 1, 2⟩,
         ⟨[("pitch", JSVal.num 3)], 1, 3⟩]).drop
        ((acceptedMsgs
          [⟨[("pitch", JSVal.num 1)], 1, 1⟩,
           ⟨[("pitch", JSVal.num 2)], 1, 2⟩,
           ⟨[("pitch", JSVal.num 3)], 1, 3⟩]).length - 2) ∧
    (acceptedMsgs
      [⟨[("pitch", JSVal.num 1)], 1, 1⟩,
       ⟨[("pitch", JSVal.num 2)], 1, 2⟩,
       ⟨[("pitch", JSVal.num 3)], 1, 3⟩]).length = 3 ∧
    ((runServer 2
      [⟨[("pitch", JSVal.num 1)], 1, 1⟩,
       ⟨[("pitch", JSVal.num 2)], 1, 2⟩,
       ⟨[("pitch", JSVal.num 3)], 1, 3⟩]
      (initState 0)).histOf 1).length = min 2 3 :=
  C4_bounded_history 2 1
    [⟨[("pitch", JSVal.num 1)], 1, 1⟩,
     ⟨[("pitch", JSVal.num 2)], 1, 2⟩,
     ⟨[("pitch", JSVal.num 3)], 1, 3⟩]
    (initState 0) (Or.inl rfl) rfl (by decide) (by decide)

/-- **C6**: a newly connected subscriber is first sent the current
latest snapshot of source 1 then of source 2 (serialized), and its
whole message sequence is exactly this catch-up burst followed by the
records accepted afterwards, in acceptance order — so the catch-up
precedes any subsequently accepted record. -/
theorem C6_catchup_order (mb : ℕ) (inputs : List Input) (st : ServerState) :
    (runServer mb inputs (onConnection st)).clients[st.clients.length]? =
      some ⟨true, [serialize st.latest1, serialize st.latest2] ++
        (acceptedMsgs inputs).map serialize⟩ := by
  exact clients_runServer_at mb inputs (onConnection st) st.clients.length
    ⟨true, [serialize st.latest1, serialize st.latest2]⟩
    (by unfold onConnection; simp) rfl

/-- **C10**: the `kind`, `source`, and `ts` of every accepted record
are determined by the server, regardless of what the caller put in the
body: `kind` is `sample` or `event` per the branch taken, `source` is
the ingress endpoint's id, `ts` is the coerced body `ts` or the
ingestion time; and the whole ingestion stores, logs, and broadcasts
exactly this message. -/
theorem C10_server_determined_fields (mb : ℕ) (body : JSObj) (source : ℕ)
    (now : ℚ) (st : ServerState) (m : JSObj)
    (hm : mkMsg body source now = some m) :
    JSObj.get m "kind" =
      (if isEventBranch body then JSVal.str "event" else .str "sample") ∧
    JSObj.get m "source" = .num source ∧
    JSObj.get m "ts" = .num ((toNum (JSObj.get body "ts")).getD now) ∧
    handleIncoming mb body source now st =
      (okResp, acceptStep mb source (isEventBranch body) m st) := by
  obtain ⟨h1, h2, h3⟩ := mkMsg_fields hm
  exact ⟨h3, h1, h2, by rw [handleIncoming_eq, hm]⟩

/-- Witness for C10 at a body that tries to spoof `kind`, `source`,
and a non-coercible `ts`: all three are overridden by the server. -/
theorem C10_witness :
    JSObj.get [("kind", JSVal.str "sample"), ("ax", JSVal.undef),
      ("ay", JSVal.undef), ("az", JSVal.undef), ("pitch", JSVal.num 1),
      ("pitch_smooth", JSVal.undef), ("roll", JSVal.undef),
      ("a_mag", JSVal.undef), ("dpitch", JSVal.undef),
      ("baseline_pitch", JSVal.undef), ("button", JSVal.undef),
      ("button_click", JSVal.undef), ("ts", JSVal.num 5),
      ("source", JSVal.num 1)] "kind" =
      (if isEventBranch [("kind", JSVal.str "bogus"),
        ("source", JSVal.num 99), ("ts", JSVal.str "zz"),
        ("pitch", JSVal.num 1)] then JSVal.str "event"
       else JSVal.str "sample") ∧
    JSObj.get [("kind", JSVal.str "sample"), ("ax", JSVal.undef),
      ("ay", JSVal.undef), ("az", JSVal.undef), ("pitch", JSVal.num 1),
      ("pitch_smooth", JSVal.undef), ("roll", JSVal.undef),
      ("a_mag", JSVal.undef), ("dpitch", JSVal.undef),
      ("baseline_pitch", JSVal.undef), ("button", JSVal.undef),
      ("button_click", JSVal.undef), ("ts", JSVal.num 5),
      ("source", JSVal.num 1)] "source" = JSVal.num 1 ∧
    JSObj.get [("kind", JSVal.str "sample"), ("ax", JSVal.undef),
      ("ay", JSVal.undef), ("az", JSVal.undef), ("pitch", JSVal.num 1),
      ("pitch_smooth", JSVal.undef), ("roll", JSVal.undef),
      ("a_mag", JSVal.undef), ("dpitch", JSVal.undef),
      ("baseline_pitch", JSVal.undef), ("button", JSVal.undef),
      ("button_click", JSVal.undef), ("ts", JSVal.num 5),
      ("source", JSVal.num 1)] "ts" =
      JSVal.num ((toNum (JSObj.get [("kind", JSVal.str "bogus"),
        ("source", JSVal.num 99), ("ts", JSVal.str "zz"),
        ("pitch", JSVal.num 1)] "ts")).getD 5) ∧
    handleIncoming 2000 [("kind", JSVal.str "bogus"),
      ("source", JSVal.num 99), ("ts", JSVal.str "zz"),
      ("pitch", JSVal.num 1)] 1 5 (initState 0) =
      (okResp, acceptStep 2000 1
        (isEventBranch [("kind", JSVal.str "bogus"),
          ("source", JSVal.num 99), ("ts", JSVal.str "zz"),
          ("pitch", JSVal.num 1)])
        [("kind", JSVal.str "sample"), ("ax", JSVal.undef),
         ("ay", JSVal.undef), ("az", JSVal.undef), ("pitch", JSVal.num 1),
         ("pitch_smooth", JSVal.undef), ("roll", JSVal.undef),
         ("a_mag", JSVal.undef), ("dpitch", JSVal.undef),
         ("baseline_pitch", JSVal.undef), ("button", JSVal.undef),
         ("button_click", JSVal.undef), ("ts", JSVal.num 5),
         ("source", JSVal.num 1)] (initState 0)) :=
  C10_server_determined_fields 2000 [("kind", JSVal.str "bogus"),
    ("source", JSVal.num 99), ("ts", JSVal.str "zz"),
    ("pitch", JSVal.num 1)] 1 5 (initState 0) _ (by decide)

lemma normalizeSample_pitch_congr (body : JSObj) (now : ℚ) (v w : JSVal)
    (hvw : toNum v = toNum w) :
    normalizeSample (JSObj.set body "pitch" v) now =
      normalizeSample (JSObj.set body "pitch" w) now := by
  have hv : ∀ f : String, f ≠ "pitch" →
      JSObj.get (JSObj.set body "pitch" v) f = JSObj.get body f :=
    fun f hf => JSObj.get_set_ne body "pitch" v f hf
  have hw : ∀ f : String, f ≠ "pitch" →
      JSObj.get (JSObj.set body "pitch" w) f = JSObj.get body f :=
    fun f hf => JSObj.get_set_ne body "pitch" w f hf
  unfold normalizeSample
  rw [JSObj.get_set_self, JSObj.get_set_self, hvw]
  cases toNum w with
  | none => rfl
  | some p =>
      rw [hv "ts" (by decide), hw "ts" (by decide),
        hv "ax" (by decide), hw "ax" (by decide),
        hv "ay" (by decide), hw "ay" (by decide),
        hv "az" (by decide), hw "az" (by decide),
        hv "pitch_smooth" (by decide), hw "pitch_smooth" (by decide),
        hv "roll" (by decide), hw "roll" (by decide),
        hv "a_mag" (by decide), hw "a_mag" (by decide),
        hv "dpitch" (by decide), hw "dpitch" (by decide),
        hv "baseline_pitch" (by decide), hw "baseline_pitch" (by decide),
        hv "button" (by decide), hw "button" (by decide),
        hv "button_click" (by decide), hw "button_click" (by decide)]

/-- **C7**: the numeric coercion maps a decimal string and the finite
number it denotes to the same value, so normalizing a raw object whose
`pitch` is the numeric string `12.5` yields a Sample record identical,
field for field, to normalizing the same object with numeric pitch
`12.5` (no `ts` jitter here since both calls happen at the same
`Date.now()`). -/
theorem C7_string_number_coercion (s : String) (q : ℚ) (body : JSObj)
    (now : ℚ) :
    (parseDec s = some q → toNum (.str s) = toNum (.num q)) ∧
    normalizeSample (JSObj.set body "pitch" (.str "12.5")) now =
      normalizeSample (JSObj.set body "pitch" (.num (mkRat 25 2))) now := by
  constructor
  · intro h
    have ht : trimChars s.data ≠ [] := by
      intro hc
      unfold parseDec at h
      rw [hc] at h
      simp [parseUnsigned] at h
    simp [toNum, ht, h]
  · exact normalizeSample_pitch_congr body now _ _ (by decide)

/-- Witness for C7 at `"12.5"` and the empty object. -/
theorem C7_witness :
    toNum (.str "12.5") = toNum (.num (mkRat 25 2)) ∧
    normalizeSample (JSObj.set [] "pitch" (.str "12.5")) 7 =
      normalizeSample (JSObj.set [] "pitch" (.num (mkRat 25 2))) 7 :=
  ⟨(C7_string_number_coercion "12.5" (mkRat 25 2) [] 7).1 (by decide),
   (C7_string_number_coercion "12.5" (mkRat 25 2) [] 7).2⟩

lemma optNum_triple (t : Option ℚ) :
    (t = none → optNum t = .undef) ∧ (optNum t = .num 0 → t = some 0) := by
  cases t <;> simp [optNum]

/-- **C8**: a coercible `pitch` is all it takes to accept a sample —
no optional-field failure rejects the record — and each optional
numeric field of the accepted record is exactly the coercion of the
raw field: absent (`undefined`) when the raw value is missing or not
coercible, never defaulted to zero (it is zero only when the raw value
coerced to zero). -/
theorem C8_optional_fields_absent (body : JSObj) (now : ℚ) :
    ((toNum (JSObj.get body "pitch")).isSome →
      ∃ m, normalizeSample body now = .ok m) ∧
    (∀ m, normalizeSample body now = .ok m → ∀ f ∈ optFields,
      JSObj.get m f = optNum (toNum (JSObj.get body f)) ∧
      (toNum (JSObj.get body f) = none → JSObj.get m f = .undef) ∧
      (JSObj.get m f = .num 0 → toNum (JSObj.get body f) = some 0)) := by
  constructor
  · exact fun h => (normalizeSample_ok_iff body now).mpr h
  · intro m hm f hf
    cases hp : toNum (JSObj.get body "pitch") with
    | none => simp [normalizeSample, hp] at hm
    | some p =>
        simp only [normalizeSample, Except.ok.injEq, hp] at hm
        subst hm
        fin_cases hf <;>
          exact ⟨rfl, (optNum_triple _).1, (optNum_triple _).2⟩

/-- Witness for C8: a body with numeric pitch and a non-coercible
`ax` is accepted, with `ax` absent from the record. -/
theorem C8_witness :
    JSObj.get [("kind", JSVal.str "sample"), ("ax", JSVal.undef),
      ("ay", JSVal.undef), ("az", JSVal.undef), ("pitch", JSVal.num 2),
      ("pitch_smooth", JSVal.undef), ("roll", JSVal.undef),
      ("a_mag", JSVal.undef), ("dpitch", JSVal.undef),
      ("baseline_pitch", JSVal.undef), ("button", JSVal.undef),
      ("button_click", JSVal.undef), ("ts", JSVal.num 7)] "ax" =
      optNum (toNum (JSObj.get [("pitch", JSVal.num 2),
        ("ax", JSVal.str "x")] "ax")) ∧
    (toNum (JSObj.get [("pitch", JSVal.num 2), ("ax", JSVal.str "x")] "ax") =
        none →
      JSObj.get [("kind", JSVal.str "sample"), ("ax", JSVal.undef),
        ("ay", JSVal.undef), ("az", JSVal.undef), ("pitch", JSVal.num 2),
        ("pitch_smooth", JSVal.undef), ("roll", JSVal.undef),
        ("a_mag", JSVal.undef), ("dpitch", JSVal.undef),
        ("baseline_pitch", JSVal.undef), ("button", JSVal.undef),
        ("button_click", JSVal.undef), ("ts", JSVal.num 7)] "ax" =
        JSVal.undef) ∧
    (JSObj.get [("kind", JSVal.str "sample"), ("ax", JSVal.undef),
      ("ay", JSVal.undef), ("az", JSVal.undef), ("pitch", JSVal.num 2),
      ("pitch_smooth", JSVal.undef), ("roll", JSVal.undef),
      ("a_mag", JSVal.undef), ("dpitch", JSVal.undef),
      ("baseline_pitch", JSVal.undef), ("button", JSVal.undef),
      ("button_click", JSVal.undef), ("ts", JSVal.num 7)] "ax" =
        JSVal.num 0 →
      toNum (JSObj.get [("pitch", JSVal.num 2),
        ("ax", JSVal.str "x")] "ax") = some 0) :=
  (C8_optional_fields_absent [("pitch", JSVal.num 2), ("ax", JSVal.str "x")]
    7).2 _ (by decide) "ax" (by decide)

lemma mkMsg_keysNodup {body : JSObj} {source : ℕ} {now : ℚ} {m : JSObj}
    (hnd : (body.map Prod.fst).Nodup) (hm : mkMsg body source now = some m) :
    (m.map Prod.fst).Nodup := by
  unfold mkMsg at hm
  cases h : JSObj.get body "event"
  case str s =>
    rw [h] at hm
    by_cases hs : s = ""
    · simp [normalizeEvent, h, hs] at hm
    · simp only [normalizeEvent, h, if_neg hs, Option.some.injEq] at hm
      subst hm
      exact JSObj.nodupKeys_set _ _
        (JSObj.nodupKeys_set _ _ (JSObj.nodupKeys_set _ _ hnd))
  all_goals
    rw [h] at hm
    cases hp : toNum (JSObj.get body "pitch") with
    | none => simp [normalizeSample, hp] at hm
    | some p =>
        simp only [normalizeSample, hp, Option.some.injEq] at hm
        subst hm
        apply JSObj.nodupKeys_set
        show (["kind", "ax", "ay", "az", "pitch", "pitch_smooth", "roll",
          "a_mag", "dpitch", "baseline_pitch", "button", "button_click",
          "ts"] : List String).Nodup
        decide

lemma sampleMsgFor_shape {s : ℕ} {i : Input} {m : JSObj}
    (h : sampleMsgFor s i = some m) :
    JSObj.get m "source" = .num s ∧ (∃ q, JSObj.get m "ts" = .num q) ∧
    JSObj.get m "kind" = .str "sample" ∧ (m.map Prod.fst).Nodup := by
  unfold sampleMsgFor at h
  split at h
  case isFalse => simp at h
  case isTrue hc =>
    cases hn : normalizeSample i.body i.now with
    | error e => rw [hn] at h; simp at h
    | ok m0 =>
        rw [hn] at h
        simp only [Option.some.injEq] at h
        subst h
        cases hp : toNum (JSObj.get i.body "pitch") with
        | none => simp [normalizeSample, hp] at hn
        | some p =>
            simp only [normalizeSample, hp, Except.ok.injEq] at hn
            subst hn
            refine ⟨?_, ⟨(toNum (JSObj.get i.body "ts")).getD i.now, ?_⟩,
              ?_, ?_⟩
            · rw [JSObj.get_set_self, hc.1]
            · rw [JSObj.get_set_ne _ _ _ _ (by decide)]
              exact get_sampleLiteral_ts _ _ _ _ _ _ _ _ _ _ _ _
            · rw [JSObj.get_set_ne _ _ _ _ (by decide)]
              exact get_sampleLiteral_kind _ _ _ _ _ _ _ _ _ _ _ _
            · apply JSObj.nodupKeys_set
              show (["kind", "ax", "ay", "az", "pitch", "pitch_smooth",
                "roll", "a_mag", "dpitch", "baseline_pitch", "button",
                "button_click", "ts"] : List String).Nodup
              decide

lemma get_serialize_of_ne_undef {o : JSObj} (hnd : (o.map Prod.fst).Nodup)
    {k : String} (hk : JSObj.get o k ≠ .undef) :
    JSObj.get (serialize o) k = JSObj.get o k := by
  rw [get_serialize o hnd k, if_neg hk]

/-- **C5 counterexample**: the catch-up message a subscriber receives
when connecting before any ingestion is the startup placeholder
`\x7b pitch: 0, ts, source \x7d`, which carries no `kind` tag at all —
so not every broadcast catch-up record carries a `kind` tag. -/
theorem C5_counterexample :
    (onConnection (initState 0)).clients =
      [{ isOpen := true,
         inbox := [[("pitch", JSVal.num 0), ("ts", JSVal.num 0),
                    ("source", JSVal.num 1)],
                   [("pitch", JSVal.num 0), ("ts", JSVal.num 0),
                    ("source", JSVal.num 2)]] }] ∧
    JSObj.get [("pitch", JSVal.num 0), ("ts", JSVal.num 0),
      ("source", JSVal.num 1)] "kind" = .undef ∧
    JSVal.undef ≠ JSVal.str "sample" ∧ JSVal.undef ≠ JSVal.str "event" := by
  decide

/-- **C5 (amended)**: every record persisted to the log or broadcast
by the ingest path carries exactly one `kind` tag (`sample` or
`event`), a `source`, and a numeric `ts` (one pair per key).  Catch-up
messages carry a `source` and a numeric `ts`, but not necessarily a
`kind`: until a sample has been accepted for a source, its `latest` is
the startup placeholder, which has no `kind` tag (and `latest` is only
ever replaced by samples). -/
theorem C5_record_tags :
    (∀ (mb : ℕ) (body : JSObj) (source : ℕ) (now : ℚ) (st : ServerState)
        (m : JSObj),
      (body.map Prod.fst).Nodup → mkMsg body source now = some m →
      (JSObj.get (serialize m) "kind" = .str "sample" ∨
        JSObj.get (serialize m) "kind" = .str "event") ∧
      JSObj.get (serialize m) "source" = .num source ∧
      (∃ q, JSObj.get (serialize m) "ts" = .num q) ∧
      ((serialize m).map Prod.fst).Nodup ∧
      (handleIncoming mb body source now st).2.logOf source =
        st.logOf source ++ [serialize m] ∧
      (handleIncoming mb body source now st).2.clients =
        st.clients.map (fun c =>
          if c.isOpen then { c with inbox := c.inbox ++ [serialize m] }
          else c)) ∧
    (∀ (mb : ℕ) (t0 : ℚ) (inputs : List Input) (s : ℕ),
      (s = 1 ∨ s = 2) → (∀ i ∈ inputs, i.source = 1 ∨ i.source = 2) →
      JSObj.get (serialize
        ((runServer mb inputs (initState t0)).latestOf s)) "source" =
        .num s ∧
      ∃ q, JSObj.get (serialize
        ((runServer mb inputs (initState t0)).latestOf s)) "ts" = .num q) := by
  constructor
  · intro mb body source now st m hnd hm
    obtain ⟨hsrc, hts, hkind⟩ := mkMsg_fields hm
    have hmnd := mkMsg_keysNodup hnd hm
    refine ⟨?_, ?_, ⟨(toNum (JSObj.get body "ts")).getD now, ?_⟩,
      (keys_serialize_sublist m).nodup hmnd, ?_, ?_⟩
    · cases hev : isEventBranch body
      · rw [hev] at hkind
        simp only [if_neg Bool.false_ne_true] at hkind
        left
        rw [get_serialize_of_ne_undef hmnd (by rw [hkind]; simp), hkind]
      · rw [hev] at hkind
        simp only [if_true] at hkind
        right
        rw [get_serialize_of_ne_undef hmnd (by rw [hkind]; simp), hkind]
    · rw [get_serialize_of_ne_undef hmnd (by rw [hsrc]; simp), hsrc]
    · rw [get_serialize_of_ne_undef hmnd (by rw [hts]; simp), hts]
    · rw [handleIncoming_eq, hm]
      simp [logOf_acceptStep]
    · rw [handleIncoming_eq, hm]
      exact clients_acceptStep mb source (isEventBranch body) m st
  · intro mb t0 inputs s hs hi
    rw [latestOf_runServer mb inputs _ s hs hi]
    cases hl : (inputs.filterMap (sampleMsgFor s)).getLast? with
    | none =>
        simp only [Option.getD_none]
        rcases hs with h | h <;> subst h <;> exact ⟨rfl, t0, rfl⟩
    | some m =>
        have hmem : m ∈ inputs.filterMap (sampleMsgFor s) :=
          List.mem_of_mem_getLast? hl
        obtain ⟨i, hi', hsm⟩ := List.mem_filterMap.mp hmem
        obtain ⟨hsrc, ⟨q, hts⟩, hkind, hnd⟩ := sampleMsgFor_shape hsm
        simp only [Option.getD_some]
        exact ⟨by rw [get_serialize_of_ne_undef hnd (by rw [hsrc]; simp),
            hsrc],
          q, by rw [get_serialize_of_ne_undef hnd (by rw [hts]; simp), hts]⟩

/-- Witness for C5 (amended): an accepted event on source 2 is logged
with its server-set `source` tag, and the pre-ingestion catch-up
record of source 1 carries its `source` tag. -/
theorem C5_witness :
    JSObj.get (serialize [("event", JSVal.str "calib"),
      ("kind", JSVal.str "event"), ("ts", JSVal.num 3),
      ("source", JSVal.num 2)]) "source" = JSVal.num 2 ∧
    JSObj.get (serialize
      ((runServer 2000 [] (initState 0)).latestOf 1)) "source" =
      JSVal.num 1 :=
  ⟨(C5_record_tags.1 2000 [("event", JSVal.str "calib")] 2 3 (initState 0)
      [("event", JSVal.str "calib"), ("kind", JSVal.str "event"),
       ("ts", JSVal.num 3), ("source", JSVal.num 2)]
      (by decide) (by decide)).2.1,
   (C5_record_tags.2 2000 0 [] 1 (Or.inl rfl) (by simp)).1⟩

lemma clampWindow_bounds {maxW : ℕ} (hw : 20 ≤ maxW) (q : ℚ) :
    20 ≤ clampWindow maxW q ∧ clampWindow maxW q ≤ maxW := by
  unfold clampWindow
  have h1 : (20 : ℤ) ≤ max 20 (min (maxW : ℤ) (Rat.floor q)) :=
    le_max_left _ _
  have h2 : max 20 (min (maxW : ℤ) (Rat.floor q)) ≤ (maxW : ℤ) :=
    max_le (by exact_mod_cast hw) (min_le_left _ _)
  omega

/-- **C9**: the analysis window extractor clamps the requested size
into `[20, ANALYSIS_MAX_WINDOW]`, returns only records whose `kind` is
`sample`, drawn from the most recent `size` records of the selected
history (exactly that filtered slice for a single source; a
permutation of the two filtered slices, sorted by ascending `ts`, when
both sources are selected), and the handler does not mutate the
state. -/
theorem C9_analysis_window (maxW : ℕ) (body : JSObj) (st : ServerState)
    (hw : 20 ≤ maxW) :
    20 ≤ (analyzeWindow maxW body st).1 ∧
    (analyzeWindow maxW body st).1 ≤ maxW ∧
    (∀ x ∈ (analyzeWindow maxW body st).2, isSampleRec x = true) ∧
    (JSObj.get body "source" = .num 1 →
      (analyzeWindow maxW body st).2 =
        (pickWindow (analyzeWindow maxW body st).1 st.history1).filter
          isSampleRec) ∧
    (JSObj.get body "source" = .num 2 →
      (analyzeWindow maxW body st).2 =
        (pickWindow (analyzeWindow maxW body st).1 st.history2).filter
          isSampleRec) ∧
    (JSObj.get body "source" = .undef →
      ((analyzeWindow maxW body st).2).Perm
        ((pickWindow (analyzeWindow maxW body st).1 st.history1).filter
            isSampleRec ++
          (pickWindow (analyzeWindow maxW body st).1 st.history2).filter
            isSampleRec) ∧
      List.Pairwise (fun a b => tsKey a ≤ tsKey b)
        ((analyzeWindow maxW body st).2)) ∧
    (postGeminiAnalyze maxW body st).2 = st := by
  obtain ⟨hb1, hb2⟩ := clampWindow_bounds hw
    ((toNum (JSObj.get body "window")).getD ANALYSIS_DEFAULT_WINDOW)
  refine ⟨hb1, hb2, ?_, ?_, ?_, ?_, rfl⟩
  · intro x hx
    unfold analyzeWindow at hx
    simp only at hx
    split at hx
    · exact (List.mem_filter.mp hx).2
    · split at hx
      · exact (List.mem_filter.mp hx).2
      · have hx' := (List.mergeSort_perm _
          (fun a b => decide (tsKey a ≤ tsKey b))).subset hx
        rcases List.mem_append.mp hx' with h | h
        · exact (List.mem_filter.mp h).2
        · exact (List.mem_filter.mp h).2
  · intro h
    unfold analyzeWindow pickWindow
    rw [h]
    simp [beq_iff_eq]
  · intro h
    unfold analyzeWindow pickWindow
    rw [h]
    simp [beq_iff_eq]
  · intro h
    unfold analyzeWindow pickWindow
    rw [h]
    simp only [beq_iff_eq]
    constructor
    · exact List.mergeSort_perm _ _
    · exact List.Pairwise.imp (fun h => of_decide_eq_true h)
        (List.sorted_mergeSort
          (fun a b c hab hbc => by
            simp only [decide_eq_true_eq] at hab hbc ⊢
            exact le_trans hab hbc)
          (fun a b => by
            simp only [Bool.or_eq_true, decide_eq_true_eq]
            exact le_total _ _)
          _)

/-- Witness for C9 at a concrete request and state. -/
theorem C9_witness :
    20 ≤ (analyzeWindow 1000 [("window", JSVal.num 30)] (initState 0)).1 ∧
    (analyzeWindow 1000 [("window", JSVal.num 30)] (initState 0)).1 ≤ 1000 ∧
    (∀ x ∈ (analyzeWindow 1000 [("window", JSVal.num 30)]
        (initState 0)).2, isSampleRec x = true) ∧
    (JSObj.get [("window", JSVal.num 30)] "source" = .num 1 →
      (analyzeWindow 1000 [("window", JSVal.num 30)] (initState 0)).2 =
        (pickWindow (analyzeWindow 1000 [("window", JSVal.num 30)]
          (initState 0)).1 (initState 0).history1).filter isSampleRec) ∧
    (JSObj.get [("window", JSVal.num 30)] "source" = .num 2 →
      (analyzeWindow 1000 [("window", JSVal.num 30)] (initState 0)).2 =
        (pickWindow (analyzeWindow 1000 [("window", JSVal.num 30)]
          (initState 0)).1 (initState 0).history2).filter isSampleRec) ∧
    (JSObj.get [("window", JSVal.num 30)] "source" = .undef →
      ((analyzeWindow 1000 [("window", JSVal.num 30)] (initState 0)).2).Perm
        ((pickWindow (analyzeWindow 1000 [("window", JSVal.num 30)]
            (initState 0)).1 (initState 0).history1).filter isSampleRec ++
          (pickWindow (analyzeWindow 1000 [("window", JSVal.num 30)]
            (initState 0)).1 (initState 0).history2).filter isSampleRec) ∧
      List.Pairwise (fun a b => tsKey a ≤ tsKey b)
        ((analyzeWindow 1000 [("window", JSVal.num 30)] (initState 0)).2)) ∧
    (postGeminiAnalyze 1000 [("window", JSVal.num 30)] (initState 0)).2 =
      initState 0 :=
  C9_analysis_window 1000 [("window", JSVal.num 30)] (initState 0)
    (by decide)
